import Mathlib

/-!
Verification of the commit-classification and temporal-pattern core of
`gh_productivity` (files `ai_detector.py` and `temporal.py`), shallowly
embedded in Lean.

Modelling conventions:
* a timezone-naive timestamp is a natural number of minutes since an
  epoch that falls on a Monday at 00:00, so `hourOf t = t / 60 % 24`,
  `dayOfWeek t = t / 1440 % 7` (Monday = 0, as in pandas) and
  `dateOnly t = t / 1440`;
* Python floats arising from ratios and averages are modelled as `ℚ`;
* `re.search` with `re.IGNORECASE` is modelled by a Brzozowski-derivative
  regular-expression engine run over the lower-cased character list, with
  the pattern literals lower-cased;
* the pair of empty strings `("", "")` used by `calculate_streak_detailed`
  as the "no streak longer than one day" sentinel is modelled as `none`,
  an actual date range `(str(a), str(b))` as `some (a, b)`;
* `pandas` integer-slice access `series[a:b]` on the integer-indexed
  `groupby("hour").size()` result is positional (iloc-like), which is the
  documented `Series.__getitem__` behaviour for integer slices; the
  grouped series itself is the hour-ascending list of
  `(hour, count)` pairs.
-/

namespace GHP

/-! ### Time model -/

def hourOf (t : ℕ) : ℕ := t / 60 % 24

def dayOfWeek (t : ℕ) : ℕ := t / 1440 % 7

def dateOnly (t : ℕ) : ℕ := t / 1440

/-! ### Regular-expression engine (Brzozowski derivatives)

Models Python `re.search(pattern, text, re.IGNORECASE)` for the pattern
fragments used in `AI_PATTERNS`: literal characters, character classes
(`\s`, `[^>]`), concatenation, alternation `(..|..)` and `*`. -/

inductive Regex where
  | fail : Regex
  | eps : Regex
  | lit : Char → Regex
  | cls : (Char → Bool) → Regex
  | cat : Regex → Regex → Regex
  | alt : Regex → Regex → Regex
  | star : Regex → Regex

def Regex.nullable : Regex → Bool
  | .fail => false
  | .eps => true
  | .lit _ => false
  | .cls _ => false
  | .cat r1 r2 => r1.nullable && r2.nullable
  | .alt r1 r2 => r1.nullable || r2.nullable
  | .star _ => true

def Regex.deriv : Regex → Char → Regex
  | .fail, _ => .fail
  | .eps, _ => .fail
  | .lit c, a => if a = c then .eps else .fail
  | .cls p, a => if p a then .eps else .fail
  | .cat r1 r2, a =>
      if r1.nullable then .alt (.cat (r1.deriv a) r2) (r2.deriv a)
      else .cat (r1.deriv a) r2
  | .alt r1 r2, a => .alt (r1.deriv a) (r2.deriv a)
  | .star r, a => .cat (r.deriv a) (.star r)

/-- matchPre r s : does `r` match some prefix of `s`? -/
def matchPre : Regex → List Char → Bool
  | r, [] => r.nullable
  | r, c :: cs => r.nullable || matchPre (r.deriv c) cs

/-- reSearch r s : does `r` match a substring of `s` (Python `re.search`)? -/
def reSearch : Regex → List Char → Bool
  | r, [] => r.nullable
  | r, c :: cs => matchPre r (c :: cs) || reSearch r cs

/-- strR s : regex matching the literal string `s` (each char in sequence). -/
def strR (s : String) : Regex :=
  s.data.foldr (fun c r => .cat (.lit c) r) .eps

/-- isSpaceChar models Python regex `\s` (ASCII whitespace set). -/
def isSpaceChar (c : Char) : Bool :=
  c == ' ' || c == '\t' || c == '\n' || c == '\r' || c == '\x0b' || c == '\x0c'

/-- wsStar models the regex fragment `\s*`. -/
def wsStar : Regex := .star (.cls isSpaceChar)

/-- notGtStar models the regex fragment `[^>]*`. -/
def notGtStar : Regex := .star (.cls (fun c => c != '>'))

/-! ### Pattern registry (AI_PATTERNS from ai_detector.py)

Literals appear lower-cased because `re.IGNORECASE` is modelled by
lower-casing both pattern and subject text. -/

structure AgentPatterns where
  emails : List Regex
  co_authored : List Regex
  keywords : List Regex

def claudePatterns : AgentPatterns where
  emails := [strR "claude@anthropic.com", strR "noreply@anthropic.com",
             strR "ai@anthropic.com"]
  co_authored :=
    [Regex.cat (strR "co-authored-by:") (.cat wsStar (.cat (strR "claude")
       (.cat wsStar (.cat (.lit '<') (.cat notGtStar (strR "anthropic.com>")))))),
     Regex.cat (strR "co-authored-by:") (.cat wsStar (.cat (strR "claude")
       (.cat wsStar (.cat (.lit '<') (.cat notGtStar (.lit '>'))))))]
  keywords :=
    [Regex.cat (strR "generated with ") (.alt (strR "claude code") (strR "claude")),
     strR "🤖 generated with",
     Regex.cat (strR "co-authored-by:") (.cat wsStar (strR "claude"))]

def copilotPatterns : AgentPatterns where
  emails := [strR "copilot@github.com", strR "ai@github.com"]
  co_authored :=
    [Regex.cat (strR "co-authored-by:") (.cat wsStar (strR "github copilot")),
     Regex.cat (strR "co-authored-by:") (.cat wsStar (strR "copilot"))]
  keywords := [strR "generated with copilot", strR "azure openai"]

def codexPatterns : AgentPatterns where
  emails := [strR "codex@openai.com", strR "codex@github.com"]
  co_authored := [Regex.cat (strR "co-authored-by:") (.cat wsStar (strR "codex"))]
  keywords := [strR "generated with codex"]

def cursorPatterns : AgentPatterns where
  emails := []
  co_authored := [Regex.cat (strR "co-authored-by:") (.cat wsStar (strR "cursor"))]
  keywords := [strR "generated with cursor"]

def aiderPatterns : AgentPatterns where
  emails := []
  co_authored := [Regex.cat (strR "co-authored-by:") (.cat wsStar (strR "aider"))]
  keywords := [strR "generated with aider"]

def clinePatterns : AgentPatterns where
  emails := []
  co_authored := [Regex.cat (strR "co-authored-by:") (.cat wsStar (strR "cline"))]
  keywords := [strR "generated with cline"]

def jetbrainsPatterns : AgentPatterns where
  emails := [strR "ai@jetbrains.com"]
  co_authored := []
  keywords := [strR "ai-generated"]

/-- AI_PATTERNS : the ordered agent registry of `ai_detector.py`
(Python dict insertion order). -/
def AI_PATTERNS : List (String × AgentPatterns) :=
  [("claude", claudePatterns), ("copilot", copilotPatterns),
   ("codex", codexPatterns), ("cursor", cursorPatterns),
   ("aider", aiderPatterns), ("cline", clinePatterns),
   ("jetbrains", jetbrainsPatterns)]

/-! ### Classifier (detect_ai) -/

structure AIInfo where
  is_ai_assisted : Bool
  ai_agent : Option String
  confidence : String
deriving DecidableEq

/-- lower l : lower-cases a character list (models `str.lower()` on the
ASCII data appearing in the classifier). -/
def lower (l : List Char) : List Char := l.map Char.toLower

def emailHit (p : AgentPatterns) (emailL : List Char) : Bool :=
  p.emails.any (fun r => reSearch r emailL)

def coauthHit (p : AgentPatterns) (msgL : List Char) : Bool :=
  p.co_authored.any (fun r => reSearch r msgL)

def keywordHit (p : AgentPatterns) (msgL : List Char) : Bool :=
  p.keywords.any (fun r => reSearch r msgL)

/-- agentHit p msgL emailL : some rule of agent `p` fires (emails are
tested against the author email, the other two against the message). -/
def agentHit (p : AgentPatterns) (msgL emailL : List Char) : Bool :=
  emailHit p emailL || coauthHit p msgL || keywordHit p msgL

/-- detectLoop : the `for agent, patterns in AI_PATTERNS.items()` loop of
`detect_ai`, returning on the first matching rule. -/
def detectLoop : List (String × AgentPatterns) → List Char → List Char → Option AIInfo
  | [], _, _ => none
  | (agent, p) :: rest, msgL, emailL =>
      if emailHit p emailL then some ⟨true, some agent, "high"⟩
      else if coauthHit p msgL then some ⟨true, some agent, "high"⟩
      else if keywordHit p msgL then some ⟨true, some agent, "medium"⟩
      else detectLoop rest msgL emailL

/-- fuzzyKeywords : the low-confidence fallback substring list. -/
def fuzzyKeywords : List String := ["ai-assisted", "ai generated", "llm", "gpt"]

/-- substrAt needle hay : `needle` is a prefix of `hay`. -/
def substrAt : List Char → List Char → Bool
  | [], _ => true
  | _ :: _, [] => false
  | a :: as, b :: bs => a == b && substrAt as bs

/-- containsSub needle hay : `needle` occurs as a contiguous substring of
`hay` (Python `needle in hay`). -/
def containsSub (needle : List Char) : List Char → Bool
  | [] => substrAt needle []
  | c :: cs => substrAt needle (c :: cs) || containsSub needle cs

/-- detectAI : shallow embedding of `detect_ai(commit_message, author_name,
author_email, commit_date)`.  The `commit_date` argument is kept (as an
integer instant) because the source accepts it, although its value is
never read. -/
def detectAI (commitMessage authorName authorEmail : String) (commitDate : ℤ) : AIInfo :=
  match detectLoop AI_PATTERNS (lower commitMessage.data) (lower authorEmail.data) with
  | some r => r
  | none =>
      if fuzzyKeywords.any (fun k => containsSub k.data
          (lower (commitMessage ++ " " ++ authorName ++ " " ++ authorEmail).data)) then
        ⟨true, some "unknown", "low"⟩
      else ⟨false, none, "low"⟩

/-! ### Session segmentation (detect_sessions) -/

structure Session where
  start : ℕ
  stop : ℕ
  duration : ℕ
  commits : ℕ
deriving DecidableEq

/-- sortCommits models `df.sort_values("date")` on the timestamp list. -/
def sortCommits (l : List ℕ) : List ℕ := List.insertionSort (· ≤ ·) l

/-- summarize grp : the session record built when a group of commits is
closed: start = first commit, stop = last commit, duration = stop − start
(minutes), commits = group size. -/
def summarize (grp : List ℕ) : Session :=
  ⟨grp.headD 0, grp.getLastD 0, grp.getLastD 0 - grp.headD 0, grp.length⟩

/-- groupAux gap cur ts : the segmentation loop of `detect_sessions`;
`cur` is the open session (nonempty, in order), `ts` the remaining sorted
timestamps.  A timestamp within `gap` minutes of the last commit of the
open session extends it, otherwise the session is closed and a new one
opened. -/
def groupAux (gap : ℕ) : List ℕ → List ℕ → List (List ℕ)
  | cur, [] => [cur]
  | cur, t :: ts =>
      if t - cur.getLastD 0 ≤ gap then groupAux gap (cur ++ [t]) ts
      else cur :: groupAux gap [t] ts

/-- groupSessions gap l : sort the timestamps, then split them into
maximal gap-bounded groups (empty input gives no groups). -/
def groupSessions (gap : ℕ) (l : List ℕ) : List (List ℕ) :=
  match sortCommits l with
  | [] => []
  | t :: ts => groupAux gap [t] ts

/-- detectSessions : shallow embedding of
`detect_sessions(commits_df, gap_threshold_minutes)`. -/
def detectSessions (l : List ℕ) (gap : ℕ) : List Session :=
  (groupSessions gap l).map summarize

/-! ### Streak calculation (calculate_streak_detailed) -/

structure StreakInfo where
  current : ℕ
  longest : ℕ
  dates : Option (ℕ × ℕ)
  avg_gap : ℚ
deriving DecidableEq

/-- sortedDedup models `sorted(df["date_only"].unique())`. -/
def sortedDedup (l : List ℕ) : List ℕ := List.insertionSort (· ≤ ·) l.dedup

/-- currentStreakAux d rest : the backward scan
`for i in range(len(dates)-1, 0, -1)` counting consecutive days, run on
the reversed date list with most recent date `d` first. -/
def currentStreakAux : ℕ → List ℕ → ℕ
  | _, [] => 1
  | d, p :: rest => if d - p = 1 then 1 + currentStreakAux p rest else 1

/-- currentStreakOf dates : current streak from the most recent date
backwards (dates sorted ascending). -/
def currentStreakOf (dates : List ℕ) : ℕ :=
  match dates.reverse with
  | [] => 0
  | d :: rest => currentStreakAux d rest

/-- longestAux prev i longest curLen streakStart longestStart rest :
the forward scan of `calculate_streak_detailed` computing the longest
consecutive-day run and the index at which it starts (ties keep the first
occurrence); returns `(longest, longest_start_idx)`. -/
def longestAux (prev i longest curLen streakStart longestStart : ℕ) :
    List ℕ → ℕ × ℕ
  | [] => (longest, longestStart)
  | d :: rest =>
      if d - prev = 1 then
        if curLen + 1 > longest then
          longestAux d (i + 1) (curLen + 1) (curLen + 1) streakStart streakStart rest
        else
          longestAux d (i + 1) longest (curLen + 1) streakStart longestStart rest
      else longestAux d (i + 1) longest 1 i longestStart rest

/-- longestInfo dates : longest streak and its start index for a nonempty
ascending date list (the empty case is unreachable in the caller). -/
def longestInfo (dates : List ℕ) : ℕ × ℕ :=
  match dates with
  | [] => (1, 0)
  | d :: rest => longestAux d 1 1 1 0 0 rest

/-- gapsOf dates : the list of adjacent-date differences strictly greater
than one day, in order. -/
def gapsOf : List ℕ → List ℕ
  | a :: b :: rest =>
      if b - a > 1 then (b - a) :: gapsOf (b :: rest) else gapsOf (b :: rest)
  | _ => []

/-- calculateStreakDetailed : shallow embedding of
`calculate_streak_detailed(commits_df)`. -/
def calculateStreakDetailed (commits : List ℕ) : StreakInfo :=
  let dates := sortedDedup (commits.map dateOnly)
  if dates = [] then ⟨0, 0, none, 0⟩
  else
    let res := longestInfo dates
    let gaps := gapsOf dates
    ⟨currentStreakOf dates,
     res.1,
     if res.1 > 1 then some (dates.getD res.2 0, dates.getD (res.2 + res.1 - 1) 0)
     else none,
     if gaps = [] then 0 else (gaps.sum : ℚ) / (gaps.length : ℚ)⟩

/-! ### Temporal profile (analyze_time_patterns) -/

structure TemporalMetrics where
  hourly_heatmap : List (List ℕ)
  peak_hours : List (ℕ × ℕ)
  weekend_commit_ratio : ℚ
  after_hours_percentage : ℚ
  work_life_interpretation : String
  chronotype : String
  session_count : ℕ
  avg_session_duration_minutes : ℚ
  commits_per_session : ℚ
  current_streak : ℕ
  longest_streak : ℕ
  longest_streak_dates : Option (ℕ × ℕ)
  avg_gap_between_streaks : ℚ
deriving DecidableEq

/-- bumpHeat f d h : increment one heatmap cell. -/
def bumpHeat (f : ℕ → ℕ → ℕ) (d h : ℕ) : ℕ → ℕ → ℕ :=
  fun d' h' => if d' = d ∧ h' = h then f d' h' + 1 else f d' h'

/-- heatFun commits : the `heatmap[row.day_of_week, row.hour] += 1` loop,
as a function from (weekday, hour) to count. -/
def heatFun (commits : List ℕ) : ℕ → ℕ → ℕ :=
  commits.foldl (fun f t => bumpHeat f (dayOfWeek t) (hourOf t)) (fun _ _ => 0)

/-- heatList f : `heatmap.tolist()`, the 7×24 matrix as a list of rows. -/
def heatList (f : ℕ → ℕ → ℕ) : List (List ℕ) :=
  (List.range 7).map (fun d => (List.range 24).map (fun h => f d h))

/-- cellSum m : total of all cells of a heatmap matrix. -/
def cellSum (m : List (List ℕ)) : ℕ := (m.map List.sum).sum

/-- hourlyCounts commits : `df.groupby("hour").size()` — the
hour-ascending list of (hour, count) pairs for the hours present. -/
def hourlyCounts (commits : List ℕ) : List (ℕ × ℕ) :=
  (sortedDedup (commits.map hourOf)).map
    (fun h => (h, commits.countP (fun t => hourOf t == h)))

/-- sliceSum l a b : `series[a:b].sum()` under positional (iloc-like)
slicing of an integer-indexed series — sum of the counts at positions
`a ≤ i < b`. -/
def sliceSum (l : List (ℕ × ℕ)) (a b : ℕ) : ℕ :=
  (((l.drop a).take (b - a)).map Prod.snd).sum

/-- peakHours hc : `hourly_counts.nlargest(3)` — stable descending sort
by count, first three entries. -/
def peakHours (hc : List (ℕ × ℕ)) : List (ℕ × ℕ) :=
  (List.insertionSort (fun a b => b.2 ≤ a.2) hc).take 3

/-- classifyChronotype : shallow embedding of `_classify_chronotype`. -/
def classifyChronotype (morning evening : ℕ) : String :=
  if morning = 0 ∧ evening = 0 then "mixed"
  else
    let total : ℚ := (morning : ℚ) + (evening : ℚ)
    let ratio : ℚ := (morning : ℚ) / total
    if ratio > 0.6 then "early bird"
    else if ratio < 0.4 then "night owl"
    else "mixed"

/-- interpretWorkLife : shallow embedding of `_interpret_work_life`. -/
def interpretWorkLife (weekendRatio afterHoursPct : ℚ) : String :=
  if weekendRatio > 0.3 ∧ afterHoursPct > 0.5 then
    "High weekend + after-hours activity"
  else if weekendRatio > 0.3 then "Significant weekend work"
  else if afterHoursPct > 0.5 then "Heavy after-hours coding"
  else if weekendRatio < 0.1 ∧ afterHoursPct < 0.2 then
    "Good work/life separation"
  else "Moderate off-hours activity"

/-- analyzeTimePatterns : shallow embedding of
`analyze_time_patterns(commits_df)`. -/
def analyzeTimePatterns (commits : List ℕ) : TemporalMetrics :=
  if commits = [] then
    ⟨List.replicate 7 (List.replicate 24 0), [], 0, 0, "No data", "mixed",
     0, 0, 0, 0, 0, none, 0⟩
  else
    let hc := hourlyCounts commits
    let morning := sliceSum hc 6 12
    let evening := sliceSum hc 18 24 + sliceSum hc 0 2
    let weekendCount := commits.countP (fun t => decide (5 ≤ dayOfWeek t))
    let weekdayCount := commits.countP (fun t => decide (dayOfWeek t < 5))
    let afterCount := commits.countP
      (fun t => decide (dayOfWeek t < 5 ∧ (hourOf t < 9 ∨ 18 ≤ hourOf t)))
    let sessions := detectSessions commits 30
    let streak := calculateStreakDetailed commits
    ⟨heatList (heatFun commits),
     peakHours hc,
     (weekendCount : ℚ) / (commits.length : ℚ),
     if 0 < weekdayCount then (afterCount : ℚ) / (weekdayCount : ℚ) else 0,
     interpretWorkLife ((weekendCount : ℚ) / (commits.length : ℚ))
       (if 0 < weekdayCount then (afterCount : ℚ) / (weekdayCount : ℚ) else 0),
     classifyChronotype morning evening,
     sessions.length,
     if sessions = [] then 0
     else ((sessions.map Session.duration).sum : ℚ) / (sessions.length : ℚ),
     if sessions = [] then 0
     else ((sessions.map Session.commits).sum : ℚ) / (sessions.length : ℚ),
     streak.current, streak.longest, streak.dates, streak.avg_gap⟩

/-! ### Helper lemmas for the classifier -/

/-- Helper: if the registry loop yields a result, `detectAI` returns it. -/
theorem detectAI_eq_of_loop (msg name email : String) (d : ℤ) (r : AIInfo)
    (h : detectLoop AI_PATTERNS (lower msg.data) (lower email.data) = some r) :
    detectAI msg name email d = r := by
  simp only [detectAI, h]

/-- Helper: first-match semantics of the registry loop.  If no rule of any
agent before position `i` fires, the loop's result is decided by agent
`i`'s rules, tried in the order emails (high), co-authored (high),
keywords (medium). -/
theorem detectLoop_first (msgL emailL : List Char) :
    ∀ (l : List (String × AgentPatterns)) (i : ℕ) (hi : i < l.length),
      (∀ j (hj : j < i), agentHit (l.get ⟨j, hj.trans hi⟩).2 msgL emailL = false) →
      ((emailHit (l.get ⟨i, hi⟩).2 emailL = true →
          detectLoop l msgL emailL = some ⟨true, some (l.get ⟨i, hi⟩).1, "high"⟩) ∧
       (emailHit (l.get ⟨i, hi⟩).2 emailL = false →
          coauthHit (l.get ⟨i, hi⟩).2 msgL = true →
          detectLoop l msgL emailL = some ⟨true, some (l.get ⟨i, hi⟩).1, "high"⟩) ∧
       (emailHit (l.get ⟨i, hi⟩).2 emailL = false →
          coauthHit (l.get ⟨i, hi⟩).2 msgL = false →
          keywordHit (l.get ⟨i, hi⟩).2 msgL = true →
          detectLoop l msgL emailL = some ⟨true, some (l.get ⟨i, hi⟩).1, "medium"⟩)) := by
  intro l
  induction l with
  | nil => intro i hi; exact absurd hi (by simp)
  | cons hd tl ih =>
    intro i hi hprev
    cases i with
    | zero =>
      obtain ⟨agent, p⟩ := hd
      refine ⟨fun he => ?_, fun he hc => ?_, fun he hc hk => ?_⟩
      · have he' : emailHit p emailL = true := he
        show detectLoop ((agent, p) :: tl) msgL emailL = some ⟨true, some agent, "high"⟩
        simp [detectLoop, he']
      · have he' : emailHit p emailL = false := he
        have hc' : coauthHit p msgL = true := hc
        show detectLoop ((agent, p) :: tl) msgL emailL = some ⟨true, some agent, "high"⟩
        simp [detectLoop, he', hc']
      · have he' : emailHit p emailL = false := he
        have hc' : coauthHit p msgL = false := hc
        have hk' : keywordHit p msgL = true := hk
        show detectLoop ((agent, p) :: tl) msgL emailL = some ⟨true, some agent, "medium"⟩
        simp [detectLoop, he', hc', hk']
    | succ i' =>
      have h0 : agentHit hd.2 msgL emailL = false := hprev 0 (Nat.succ_pos _)
      simp only [agentHit, Bool.or_eq_false_iff] at h0
      obtain ⟨⟨he0, hc0⟩, hk0⟩ := h0
      have hi' : i' < tl.length := Nat.lt_of_succ_lt_succ hi
      have hstep : detectLoop (hd :: tl) msgL emailL = detectLoop tl msgL emailL := by
        obtain ⟨agent, p⟩ := hd
        simp only at he0 hc0 hk0
        simp [detectLoop, he0, hc0, hk0]
      have hprev' : ∀ j (hj : j < i'),
          agentHit (tl.get ⟨j, hj.trans hi'⟩).2 msgL emailL = false := by
        intro j hj
        exact hprev (j + 1) (Nat.succ_lt_succ hj)
      have hmain := ih i' hi' hprev'
      rw [hstep]
      exact hmain

/-! ### Helper lemmas for sessions, streaks and the heatmap -/

/-- Helper: concatenating the groups produced by the segmentation loop
recovers the open session followed by the remaining input. -/
theorem groupAux_join (gap : ℕ) :
    ∀ (ts cur : List ℕ), (groupAux gap cur ts).flatten = cur ++ ts := by
  intro ts
  induction ts with
  | nil => intro cur; simp [groupAux]
  | cons t ts ih =>
    intro cur
    simp only [groupAux]
    split
    · rw [ih (cur ++ [t])]; simp
    · simp only [List.flatten_cons, ih [t]]; simp

/-- Helper: the segmentation loop never produces an empty group list. -/
theorem groupAux_ne_nil (gap : ℕ) : ∀ (ts cur : List ℕ), groupAux gap cur ts ≠ [] := by
  intro ts
  induction ts with
  | nil => intro cur; simp [groupAux]
  | cons t ts ih =>
    intro cur
    simp only [groupAux]
    split
    · exact ih (cur ++ [t])
    · simp

/-- Helper: session commit counts sum to the number of input commits. -/
theorem detectSessions_commits_sum (l : List ℕ) (gap : ℕ) :
    ((detectSessions l gap).map Session.commits).sum = l.length := by
  unfold detectSessions groupSessions
  cases h : sortCommits l with
  | nil =>
    have h0 := congrArg List.length h
    rw [sortCommits, List.length_insertionSort, List.length_nil] at h0
    simp [h0]
  | cons t ts =>
    have hlen := congrArg List.length h
    rw [sortCommits, List.length_insertionSort] at hlen
    have hcomp : ((groupAux gap [t] ts).map summarize).map Session.commits
        = (groupAux gap [t] ts).map List.length := by
      rw [List.map_map]
      exact List.map_congr_left fun g _ => rfl
    rw [hcomp, ← List.length_flatten, groupAux_join]
    simpa using hlen.symm

/-- Helper: summing a function mapped over `List.range n` is the
corresponding `Finset.range` sum. -/
theorem sum_map_range (n : ℕ) (f : ℕ → ℕ) :
    ((List.range n).map f).sum = ∑ i in Finset.range n, f i := by
  induction n with
  | zero => simp
  | succ n ih =>
    rw [List.range_succ, List.map_append, List.sum_append, Finset.sum_range_succ, ih]
    simp

/-- Helper: the total of the materialised heatmap is the double sum of the
underlying cell function over the 7×24 grid. -/
theorem cellSum_heatList (f : ℕ → ℕ → ℕ) :
    cellSum (heatList f) = ∑ d in Finset.range 7, ∑ h in Finset.range 24, f d h := by
  unfold cellSum heatList
  rw [List.map_map, sum_map_range]
  exact Finset.sum_congr rfl fun d _ => sum_map_range 24 (f d)

/-- Helper: bumping one in-range cell increases the grid total by one. -/
theorem bumpHeat_sum (f : ℕ → ℕ → ℕ) (d h : ℕ) (hd : d < 7) (hh : h < 24) :
    (∑ x in Finset.range 7, ∑ y in Finset.range 24, bumpHeat f d h x y)
      = (∑ x in Finset.range 7, ∑ y in Finset.range 24, f x y) + 1 := by
  have hrow : ∀ x, (∑ y in Finset.range 24, bumpHeat f d h x y)
      = (∑ y in Finset.range 24, f x y) + (if x = d then 1 else 0) := by
    intro x
    by_cases h1 : x = d
    · subst h1
      rw [if_pos rfl]
      have hcell : ∀ y ∈ Finset.range 24,
          bumpHeat f x h x y = f x y + (if y = h then 1 else 0) := by
        intro y _
        unfold bumpHeat
        by_cases h2 : y = h <;> simp [h2]
      rw [Finset.sum_congr rfl hcell, Finset.sum_add_distrib, Finset.sum_ite_eq']
      simp [hh]
    · rw [if_neg h1]
      have hcell : ∀ y ∈ Finset.range 24, bumpHeat f d h x y = f x y := by
        intro y _
        unfold bumpHeat
        simp [h1]
      rw [Finset.sum_congr rfl hcell]
      simp
  rw [Finset.sum_congr rfl (fun x _ => hrow x), Finset.sum_add_distrib,
    Finset.sum_ite_eq']
  simp [hd]

/-- Helper: the heatmap-filling fold counts every commit exactly once. -/
theorem heatFun_sum (commits : List ℕ) :
    (∑ d in Finset.range 7, ∑ h in Finset.range 24, heatFun commits d h)
      = commits.length := by
  have key : ∀ (l : List ℕ) (f : ℕ → ℕ → ℕ),
      (∑ d in Finset.range 7, ∑ h in Finset.range 24,
        (l.foldl (fun g t => bumpHeat g (dayOfWeek t) (hourOf t)) f) d h)
      = (∑ d in Finset.range 7, ∑ h in Finset.range 24, f d h) + l.length := by
    intro l
    induction l with
    | nil => intro f; simp
    | cons t ts ih =>
      intro f
      rw [List.foldl_cons, ih,
        bumpHeat_sum f (dayOfWeek t) (hourOf t)
          (Nat.mod_lt _ (by norm_num)) (Nat.mod_lt _ (by norm_num))]
      simp only [List.length_cons]
      omega
  rw [heatFun, key]
  simp

/-- C6: for every commit set the 7×24 heatmap cells sum to the number of
input commits, and for every threshold the sessions partition the
commits — their commit counts also sum to the number of input commits. -/
theorem claim6_heatmap_and_session_totals :
    ∀ (commits : List ℕ) (gap : ℕ),
      cellSum (analyzeTimePatterns commits).hourly_heatmap = commits.length ∧
      ((detectSessions commits gap).map Session.commits).sum = commits.length := by
  intro commits gap
  refine ⟨?_, detectSessions_commits_sum commits gap⟩
  by_cases h : commits = []
  · subst h; decide
  · have hfield : (analyzeTimePatterns commits).hourly_heatmap
        = heatList (heatFun commits) := by
      simp only [analyzeTimePatterns]
      rw [if_neg h]
    rw [hfield, cellSum_heatList, heatFun_sum]

/-- C5: session segmentation keeps an open session and closes it at gaps
above the threshold — the empty input yields no sessions, the final open
session is always flushed (nonempty input yields at least one session),
and the spec's example [T, T+10, T+50] with threshold 30 yields exactly
the two sessions [T, T+10] (2 commits, duration 10) and [T+50, T+50]
(1 commit, duration 0). -/
theorem claim5_session_segmentation :
    (∀ gap : ℕ, detectSessions [] gap = []) ∧
    (∀ T : ℕ, detectSessions [T, T + 10, T + 50] 30 =
        [⟨T, T + 10, 10, 2⟩, ⟨T + 50, T + 50, 0, 1⟩]) ∧
    (∀ (l : List ℕ) (gap : ℕ), l ≠ [] → detectSessions l gap ≠ []) := by
  refine ⟨fun _ => rfl, fun T => ?_, fun l gap hl => ?_⟩
  · have hsort : sortCommits [T, T + 10, T + 50] = [T, T + 10, T + 50] :=
      List.Sorted.insertionSort_eq (by simp [List.sorted_cons])
    have e1 : T + 10 - T = 10 := by omega
    have e2 : T + 50 - (T + 10) = 40 := by omega
    have hg : groupSessions 30 [T, T + 10, T + 50] = [[T, T + 10], [T + 50]] := by
      unfold groupSessions
      rw [hsort]
      simp [groupAux, List.getLastD, e1, e2]
    unfold detectSessions
    rw [hg]
    simp [summarize, List.getLastD, e1]
  · unfold detectSessions groupSessions
    cases h : sortCommits l with
    | nil =>
      have := congrArg List.length h
      rw [sortCommits, List.length_insertionSort, List.length_nil] at this
      exact absurd (List.length_eq_zero.mp this) hl
    | cons t ts =>
      simp [groupAux_ne_nil]

/-- C5 (witness): a singleton input is nonempty and yields a nonempty
session list. -/
theorem claim5_witness :
    ([5] : List ℕ) ≠ [] ∧ detectSessions [5] 30 ≠ [] :=
  ⟨by decide, claim5_session_segmentation.2.2 [5] 30 (by decide)⟩

/-- Helper: if every remaining timestamp is within the gap of its
predecessor, the segmentation loop returns the single group holding
everything. -/
theorem groupAux_flat (gap : ℕ) :
    ∀ (ts cur : List ℕ), cur ≠ [] →
      List.Chain' (fun a b => b - a ≤ gap) (cur.getLastD 0 :: ts) →
      groupAux gap cur ts = [cur ++ ts] := by
  intro ts
  induction ts with
  | nil => intro cur _ _; simp [groupAux]
  | cons t ts ih =>
    intro cur hcur hchain
    obtain ⟨hrel, hchain'⟩ := List.chain'_cons.mp hchain
    simp only [groupAux]
    rw [if_pos hrel]
    have hlast : (cur ++ [t]).getLastD 0 = t := List.getLastD_concat 0 t cur
    rw [ih (cur ++ [t]) (by simp) (by rw [hlast]; exact hchain')]
    simp

/-- Helper: every group produced by the segmentation loop from a sorted
input is nonempty, sorted, and has all adjacent gaps within the
threshold. -/
theorem groupAux_mem_props (gap : ℕ) :
    ∀ (ts cur grp : List ℕ), grp ∈ groupAux gap cur ts → cur ≠ [] →
      List.Sorted (· ≤ ·) (cur ++ ts) →
      List.Chain' (fun a b => b - a ≤ gap) cur →
      grp ≠ [] ∧ List.Sorted (· ≤ ·) grp ∧
        List.Chain' (fun a b => b - a ≤ gap) grp := by
  intro ts
  induction ts with
  | nil =>
    intro cur grp hmem hcur hsort hchain
    simp only [groupAux, List.mem_singleton] at hmem
    subst hmem
    exact ⟨hcur, by simpa using hsort, hchain⟩
  | cons t ts ih =>
    intro cur grp hmem hcur hsort hchain
    simp only [groupAux] at hmem
    by_cases hgap : t - cur.getLastD 0 ≤ gap
    · rw [if_pos hgap] at hmem
      refine ih (cur ++ [t]) grp hmem (by simp) ?_ ?_
      · rw [← List.append_cons]
        exact hsort
      · rw [List.chain'_append]
        refine ⟨hchain, List.chain'_singleton t, ?_⟩
        intro x hx y hy
        simp only [List.head?_cons, Option.mem_def, Option.some.injEq] at hy
        subst hy
        have hgl : cur.getLastD 0 = x := by
          rw [List.getLastD_eq_getLast?]
          cases hql : cur.getLast? with
          | none => rw [hql] at hx; simp at hx
          | some z =>
            rw [hql] at hx
            simp only [Option.mem_def, Option.some.injEq] at hx
            subst hx
            rfl
        rw [← hgl]
        exact hgap
    · rw [if_neg hgap] at hmem
      rcases List.mem_cons.mp hmem with rfl | hmem'
      · refine ⟨hcur, ?_, hchain⟩
        exact List.Pairwise.sublist (List.sublist_append_left grp (t :: ts)) hsort
      · refine ih [t] grp hmem' (by simp) ?_ (List.chain'_singleton t)
        exact List.Pairwise.sublist (List.sublist_append_right cur (t :: ts)) hsort

/-- C8: segmentation is idempotent — feeding the timestamps of any one
session produced by `detect_sessions` back into `detect_sessions` with
the same threshold returns exactly that single session (same start, end,
duration and commit count), so re-segmenting an already-segmented
session list changes nothing. -/
theorem claim8_resegmentation_idempotent (l : List ℕ) (gap : ℕ) (grp : List ℕ)
    (hmem : grp ∈ groupSessions gap l) :
    detectSessions grp gap = [summarize grp] := by
  obtain ⟨hne, hsorted, hchain⟩ :
      grp ≠ [] ∧ List.Sorted (· ≤ ·) grp ∧
        List.Chain' (fun a b => b - a ≤ gap) grp := by
    unfold groupSessions at hmem
    cases h : sortCommits l with
    | nil => rw [h] at hmem; simp at hmem
    | cons t ts =>
      rw [h] at hmem
      have hsort : List.Sorted (· ≤ ·) ([t] ++ ts) := by
        have hs := List.sorted_insertionSort (· ≤ ·) l
        rw [show List.insertionSort (· ≤ ·) l = sortCommits l from rfl, h] at hs
        simpa using hs
      exact groupAux_mem_props gap ts [t] grp hmem (by simp) hsort
        (List.chain'_singleton t)
  cases grp with
  | nil => exact absurd rfl hne
  | cons g gs =>
    have hg0 : ([g] : List ℕ).getLastD 0 = g := List.getLastD_concat 0 g []
    have hred : groupSessions gap (g :: gs) = groupAux gap [g] gs := by
      unfold groupSessions
      rw [show sortCommits (g :: gs) = g :: gs from
        List.Sorted.insertionSort_eq hsorted]
    unfold detectSessions
    rw [hred, groupAux_flat gap gs [g] (by simp) (by rw [hg0]; exact hchain)]
    simp

/-- C8 (witness): the first session of segmenting [0, 10, 50] with
threshold 30 is [0, 10], and re-segmenting it returns that single
session. -/
theorem claim8_witness :
    ([0, 10] : List ℕ) ∈ groupSessions 30 [0, 10, 50] ∧
    detectSessions [0, 10] 30 = [summarize [0, 10]] :=
  ⟨by decide, claim8_resegmentation_idempotent [0, 10, 50] 30 [0, 10] (by decide)⟩

/-- Helper: a relation holding for all pairs of members holds along the
chain of adjacent members. -/
theorem all_pairs_chain' {P : ℕ → ℕ → Prop} :
    ∀ (L : List ℕ), (∀ a ∈ L, ∀ b ∈ L, P a b) → List.Chain' P L := by
  intro L
  induction L with
  | nil => intro _; simp
  | cons x xs ih =>
    intro h
    rw [List.chain'_cons']
    constructor
    · intro y hy
      exact h x (List.mem_cons_self x xs) y
        (List.mem_cons_of_mem x (List.mem_of_mem_head? hy))
    · exact ih fun a ha b hb =>
        h a (List.mem_cons_of_mem x ha) b (List.mem_cons_of_mem x hb)

/-- Helper: when no adjacent date pair is consecutive, the longest-streak
scan never updates its accumulators. -/
theorem longestAux_all_break :
    ∀ (rest : List ℕ) (prev i L c s ls : ℕ),
      List.Chain' (fun a b => ¬(b - a = 1)) (prev :: rest) →
      longestAux prev i L c s ls rest = (L, ls) := by
  intro rest
  induction rest with
  | nil => intro prev i L c s ls _; rfl
  | cons d rest ih =>
    intro prev i L c s ls hchain
    obtain ⟨h1, hchain'⟩ := List.chain'_cons.mp hchain
    simp only [longestAux]
    rw [if_neg h1]
    exact ih d (i + 1) L 1 i ls hchain'

/-- C9: for every nonempty commit set in which no two distinct commit
dates are consecutive calendar days, the longest streak is 1 and the
longest-streak date range is the sentinel `("", "")` (modelled `none`) —
the same sentinel as for empty input, not a single-day range. -/
theorem claim9_isolated_dates_sentinel (commits : List ℕ)
    (hne : commits ≠ [])
    (hiso : ∀ a ∈ commits, ∀ b ∈ commits, dateOnly b ≠ dateOnly a + 1) :
    (calculateStreakDetailed commits).longest = 1 ∧
    (calculateStreakDetailed commits).dates = none := by
  have hdne : sortedDedup (commits.map dateOnly) ≠ [] := by
    intro h
    have hlen := congrArg List.length h
    rw [sortedDedup, List.length_insertionSort, List.length_nil,
      List.length_eq_zero, List.dedup_eq_nil, List.map_eq_nil_iff] at hlen
    exact hne hlen
  have hmemall : ∀ x ∈ sortedDedup (commits.map dateOnly),
      x ∈ commits.map dateOnly := by
    intro x hx
    rw [sortedDedup, List.mem_insertionSort, List.mem_dedup] at hx
    exact hx
  have hpair : ∀ a ∈ sortedDedup (commits.map dateOnly),
      ∀ b ∈ sortedDedup (commits.map dateOnly), ¬(b - a = 1) := by
    intro a ha b hb h1
    obtain ⟨ta, hta, rfl⟩ := List.mem_map.mp (hmemall a ha)
    obtain ⟨tb, htb, rfl⟩ := List.mem_map.mp (hmemall b hb)
    exact hiso ta hta tb htb (by omega)
  have hchain := all_pairs_chain' _ hpair
  obtain ⟨d, rest, hd⟩ : ∃ d rest,
      sortedDedup (commits.map dateOnly) = d :: rest := by
    cases h : sortedDedup (commits.map dateOnly) with
    | nil => exact absurd h hdne
    | cons d r => exact ⟨d, r, rfl⟩
  have hli : longestInfo (sortedDedup (commits.map dateOnly)) = (1, 0) := by
    rw [hd]
    exact longestAux_all_break rest d 1 1 1 0 0 (hd ▸ hchain)
  refine ⟨?_, ?_⟩ <;>
    · simp only [calculateStreakDetailed]
      rw [if_neg hdne]
      simp [hli]

/-- C9 (witness): two commits two days apart — dates 0 and 2, no
consecutive pair — give longest streak 1 and the sentinel date range. -/
theorem claim9_witness :
    (calculateStreakDetailed [0, 2880]).longest = 1 ∧
    (calculateStreakDetailed [0, 2880]).dates = none :=
  claim9_isolated_dates_sentinel [0, 2880] (by decide) (by decide)

/-- C2 (amended): for the distinct calendar dates D, D+1, D+2, D+4 the
streak calculator returns longest streak 3 covering D..D+2, current
streak 1, and average gap 2 days (the single collected gap is the
adjacent-date difference (D+4) − (D+2) = 2, not 1). -/
theorem claim2_amended (D : ℕ) :
    calculateStreakDetailed
        [1440 * D, 1440 * (D + 1), 1440 * (D + 2), 1440 * (D + 4)] =
      ⟨1, 3, some (D, D + 2), 2⟩ := by
  have e1 : D + 1 - D = 1 := by omega
  have e2 : D + 2 - (D + 1) = 1 := by omega
  have e4 : D + 4 - (D + 2) = 2 := by omega
  have hmap : List.map dateOnly
      [1440 * D, 1440 * (D + 1), 1440 * (D + 2), 1440 * (D + 4)]
      = [D, D + 1, D + 2, D + 4] := by
    simp [dateOnly, Nat.mul_div_cancel_left]
  have hdedup : List.dedup [D, D + 1, D + 2, D + 4] = [D, D + 1, D + 2, D + 4] := by
    rw [List.dedup_eq_self]
    simp
  have hsd : sortedDedup (List.map dateOnly
      [1440 * D, 1440 * (D + 1), 1440 * (D + 2), 1440 * (D + 4)])
      = [D, D + 1, D + 2, D + 4] := by
    rw [sortedDedup, hmap, hdedup]
    exact List.Sorted.insertionSort_eq (by simp [List.sorted_cons])
  have hcur : currentStreakOf [D, D + 1, D + 2, D + 4] = 1 := by
    show currentStreakAux (D + 4) [D + 2, D + 1, D] = 1
    simp only [currentStreakAux]
    rw [if_neg (by omega : ¬(D + 4 - (D + 2) = 1))]
  have hli : longestInfo [D, D + 1, D + 2, D + 4] = (3, 0) := by
    show longestAux D 1 1 1 0 0 [D + 1, D + 2, D + 4] = (3, 0)
    simp [longestAux, e1, e2, e4]
  have hgaps : gapsOf [D, D + 1, D + 2, D + 4] = [2] := by
    simp [gapsOf, e1, e2, e4]
  simp only [calculateStreakDetailed, hsd]
  rw [if_neg (by simp : ¬([D, D + 1, D + 2, D + 4] : List ℕ) = [])]
  rw [hcur, hli, hgaps]
  norm_num

/-- C10: `detect_ai` does not depend on the commit timestamp — two calls
differing only in the `commit_date` argument return equal results (and
the function is deterministic, so repeated identical calls agree). -/
theorem claim10_classifier_ignores_timestamp :
    ∀ (msg name email : String) (d1 d2 : ℤ),
      detectAI msg name email d1 = detectAI msg name email d2 :=
  fun _ _ _ _ _ => rfl

/-- C7: the empty commit set raises no error and yields the documented
defaults — empty session list for every threshold, all-zero StreakInfo
with the sentinel date range, and the all-zero-heatmap "No data"
temporal profile with chronotype "mixed". -/
theorem claim7_empty_input_defaults :
    analyzeTimePatterns [] =
      ⟨List.replicate 7 (List.replicate 24 0), [], 0, 0, "No data", "mixed",
       0, 0, 0, 0, 0, none, 0⟩ ∧
    (∀ gap : ℕ, detectSessions [] gap = []) ∧
    calculateStreakDetailed [] = ⟨0, 0, none, 0⟩ :=
  ⟨by decide, fun _ => rfl, by decide⟩

/-- C3 (code bug witness): for three commits all at hour 10 — minutes
600, 601, 602, so `hourly_counts` is the single-entry series
`[(10, 3)]` — positional slicing makes `morning = hourly_counts[6:12] = 0`
while `hourly_counts[0:2]` contributes all three commits to `evening`,
so the code classifies a purely mid-morning committer as "night owl";
the claim's hour-interval definition gives morning = 3, evening = 0 and
hence "early bird", as the second conjunct shows. -/
theorem claim3_chronotype_failing_input :
    (analyzeTimePatterns [600, 601, 602]).chronotype = "night owl" ∧
    classifyChronotype 3 0 = "early bird" := by
  constructor
  · have h : (analyzeTimePatterns [600, 601, 602]).chronotype
        = classifyChronotype (sliceSum (hourlyCounts [600, 601, 602]) 6 12)
            (sliceSum (hourlyCounts [600, 601, 602]) 18 24 +
              sliceSum (hourlyCounts [600, 601, 602]) 0 2) := by
      simp only [analyzeTimePatterns]
      rw [if_neg (by decide : ¬([600, 601, 602] : List ℕ) = [])]
    rw [h, (by decide : sliceSum (hourlyCounts [600, 601, 602]) 6 12 = 0),
        (by decide : sliceSum (hourlyCounts [600, 601, 602]) 18 24 +
            sliceSum (hourlyCounts [600, 601, 602]) 0 2 = 3)]
    norm_num [classifyChronotype]
  · norm_num [classifyChronotype]

/-- C1 (counterexample): the author email `copilot@github.com` matches
the copilot email pattern, yet for a message carrying a Claude
co-author trailer the classifier reports "claude", not "copilot",
because the claude agent is examined first. -/
theorem claim1_counterexample :
    reSearch (strR "copilot@github.com") (lower "copilot@github.com".data) = true ∧
    detectAI "Co-Authored-By: Claude <a>" "x" "copilot@github.com" 0 =
      ⟨true, some "claude", "high"⟩ ∧
    detectAI "Co-Authored-By: Claude <a>" "x" "copilot@github.com" 0 ≠
      ⟨true, some "copilot", "high"⟩ := by
  refine ⟨by decide, by decide, by decide⟩

/-- C4: `detect_ai` iterates agents in registry insertion order and
returns on the first match — if no rule of any earlier-registered agent
fires, the result is decided by agent `i`'s rules tried in the order
email rules against the author email only (confidence "high"),
co-authorship-trailer rules against the message (confidence "high"),
keyword rules against the message (confidence "medium"); in particular
an earlier-registered agent always wins a tie. -/
theorem claim4_first_match_order (msg name email : String) (d : ℤ)
    (i : ℕ) (hi : i < AI_PATTERNS.length)
    (hprev : ∀ j (hj : j < i),
      agentHit (AI_PATTERNS.get ⟨j, hj.trans hi⟩).2
        (lower msg.data) (lower email.data) = false) :
    (emailHit (AI_PATTERNS.get ⟨i, hi⟩).2 (lower email.data) = true →
       detectAI msg name email d =
         ⟨true, some (AI_PATTERNS.get ⟨i, hi⟩).1, "high"⟩) ∧
    (emailHit (AI_PATTERNS.get ⟨i, hi⟩).2 (lower email.data) = false →
       coauthHit (AI_PATTERNS.get ⟨i, hi⟩).2 (lower msg.data) = true →
       detectAI msg name email d =
         ⟨true, some (AI_PATTERNS.get ⟨i, hi⟩).1, "high"⟩) ∧
    (emailHit (AI_PATTERNS.get ⟨i, hi⟩).2 (lower email.data) = false →
       coauthHit (AI_PATTERNS.get ⟨i, hi⟩).2 (lower msg.data) = false →
       keywordHit (AI_PATTERNS.get ⟨i, hi⟩).2 (lower msg.data) = true →
       detectAI msg name email d =
         ⟨true, some (AI_PATTERNS.get ⟨i, hi⟩).1, "medium"⟩) := by
  obtain ⟨h1, h2, h3⟩ :=
    detectLoop_first (lower msg.data) (lower email.data) AI_PATTERNS i hi hprev
  exact ⟨fun he => detectAI_eq_of_loop msg name email d _ (h1 he),
         fun he hc => detectAI_eq_of_loop msg name email d _ (h2 he hc),
         fun he hc hk => detectAI_eq_of_loop msg name email d _ (h3 he hc hk)⟩

/-- C4 (witness): with an empty message and the author email
`copilot@github.com`, no claude rule fires, copilot's email rule does,
and the classifier reports copilot with confidence high. -/
theorem claim4_witness :
    detectAI "" "" "copilot@github.com" 0 = ⟨true, some "copilot", "high"⟩ :=
  (claim4_first_match_order "" "" "copilot@github.com" 0 1 (by decide)
      (fun j hj => by
        obtain rfl : j = 0 := Nat.lt_one_iff.mp hj
        exact (by decide : agentHit claudePatterns (lower "".data)
          (lower "copilot@github.com".data) = false))).1 (by decide)

/-- C1 (amended): for every commit whose author email matches the pattern
`copilot@github.com`, provided no claude rule fires first (no claude
email pattern matches the email, and the message matches no claude
co-authored or keyword pattern), the classifier returns is_ai_assisted =
true, agent = "copilot", confidence = "high", regardless of the rest of
the message. -/
theorem claim1_amended (msg name email : String) (d : ℤ)
    (hmail : reSearch (strR "copilot@github.com") (lower email.data) = true)
    (hclaude : agentHit claudePatterns (lower msg.data) (lower email.data) = false) :
    detectAI msg name email d = ⟨true, some "copilot", "high"⟩ := by
  simp only [agentHit, Bool.or_eq_false_iff] at hclaude
  obtain ⟨⟨he, hc⟩, hk⟩ := hclaude
  have hcop : emailHit copilotPatterns (lower email.data) = true := by
    simp [emailHit, copilotPatterns, hmail]
  apply detectAI_eq_of_loop
  simp [AI_PATTERNS, detectLoop, he, hc, hk, hcop]

/-- C1 (amended, witness): a plain message with the copilot bot email is
classified as copilot with confidence high. -/
theorem claim1_amended_witness :
    detectAI "hello" "x" "copilot@github.com" 0 = ⟨true, some "copilot", "high"⟩ :=
  claim1_amended "hello" "x" "copilot@github.com" 0 (by decide) (by decide)

/-- C2 (counterexample): for the dates D, D+1, D+2, D+4 with D = day 0
(timestamps at midnight of each day), the single inter-streak gap
collected by the code is `4 − 2 = 2` days, so the average gap is 2,
not 1 as claimed; the other fields are as claimed. -/
theorem claim2_counterexample :
    calculateStreakDetailed [0, 1440, 2880, 5760] = ⟨1, 3, some (0, 2), 2⟩ ∧
    (calculateStreakDetailed [0, 1440, 2880, 5760]).avg_gap ≠ 1 := by
  have hds : sortedDedup (List.map dateOnly [0, 1440, 2880, 5760]) = [0, 1, 2, 4] := by
    decide
  have hmain : calculateStreakDetailed [0, 1440, 2880, 5760] = ⟨1, 3, some (0, 2), 2⟩ := by
    simp only [calculateStreakDetailed, hds]
    rw [if_neg (by decide : ¬([0, 1, 2, 4] : List ℕ) = [])]
    rw [(by decide : currentStreakOf [0, 1, 2, 4] = 1),
        (by decide : longestInfo [0, 1, 2, 4] = (3, 0)),
        (by decide : gapsOf [0, 1, 2, 4] = [2])]
    norm_num
  exact ⟨hmain, by rw [hmain]; norm_num⟩

end GHP
